import Mathlib

/-!
Verification of the jira-cli issue tracker core against its specification.

The program stores a two-level hierarchy of work items: epics own ordered
lists of story IDs, and a flat `stories` map holds the stories themselves.
This file gives a shallow embedding of the persistence layer
(`src/db.rs`), the screen input interpreters (`src/ui/pages/mod.rs`) and
the column formatter (`src/ui/pages/page_helpers.rs`), and proves the
specification claims about them.

Modelling conventions:
* Rust `HashMap<u32, T>` is modelled as an association list
  `List (Nat * T)`; `insertKey` replaces the binding of an existing key in
  place and otherwise appends, `removeKey` drops the binding, `lookupKey`
  finds it.  Real hash maps never hold duplicate keys, so theorems that
  need key uniqueness take `(keys m).Nodup` hypotheses.
* Rust `u32` values are modelled as `Nat`; the ID allocation
  `last_item_id + 1` is computed modulo `2 ^ 32 = 4294967296`, the
  wrap-around semantics of release-mode `u32` addition.
* Rust `String` is modelled as `List Char`; where the source measures
  `str::len` (a byte count) the model uses the UTF-8 byte size of the
  character list, which agrees with it.
* The fallible store operations return `Except DbError`; the source
  persists via a single `write_db` call placed after every fallible step,
  so a failing operation leaves the persisted state unchanged, which
  `stepOp` captures by keeping the old state on `.error`.
-/

namespace Jira

/-- Status of an epic or story, from `models.rs` (`enum Status`). -/
inductive Status where
  | Open : Status
  | InProgress : Status
  | Resolved : Status
  | Closed : Status
deriving DecidableEq, Repr

/-- A story, from `models.rs` (`struct Story`): name, description, status. -/
structure Story where
  name : List Char
  description : List Char
  status : Status
deriving DecidableEq, Repr

/-- An epic, from `models.rs` (`struct Epic`): name, description, status and
the ordered list of owned story IDs. -/
structure Epic where
  name : List Char
  description : List Char
  status : Status
  stories : List Nat
deriving DecidableEq, Repr

/-- `Epic::new`: fresh epic with `Open` status and an empty story list. -/
def Epic.new (name description : List Char) : Epic :=
  { name := name, description := description, status := Status.Open, stories := [] }

/-- `Story::new`: fresh story with `Open` status. -/
def Story.new (name description : List Char) : Story :=
  { name := name, description := description, status := Status.Open }

/-- The persisted database state, from `models.rs` (`struct DBState`):
the ID counter and the two entity maps. -/
structure DBState where
  last_item_id : Nat
  epics : List (Nat × Epic)
  stories : List (Nat × Story)
deriving DecidableEq, Repr

/-- UI actions produced by input interpretation, from `models.rs`
(`enum Action`). -/
inductive Action where
  | NavigateToEpicDetail : Nat → Action
  | NavigateToStoryDetail : Nat → Nat → Action
  | NavigateToPreviousPage : Action
  | CreateEpic : Action
  | UpdateEpicStatus : Nat → Action
  | DeleteEpic : Nat → Action
  | CreateStory : Nat → Action
  | UpdateStoryStatus : Nat → Action
  | DeleteStory : Nat → Nat → Action
  | Exit : Action
deriving DecidableEq, Repr

/-- Errors surfaced by the store operations.  The source uses `anyhow`
messages; only the distinction between the failure sites matters here. -/
inductive DbError where
  | epicNotFound : DbError
  | storyNotFound : DbError
  | ioError : DbError
deriving DecidableEq, Repr

/-- Modulus of 32-bit unsigned arithmetic (`u32` wraps at `2 ^ 32`). -/
def u32Mod : Nat := 4294967296

/-! ### Association-list model of `HashMap<u32, T>` -/

/-- Keys of an association list. -/
def keys {α : Type} (l : List (Nat × α)) : List Nat :=
  l.map Prod.fst

/-- `HashMap::get`: binding of the first occurrence of a key. -/
def lookupKey {α : Type} : List (Nat × α) → Nat → Option α
  | [], _ => none
  | p :: t, k => if p.1 = k then some p.2 else lookupKey t k

/-- `HashMap::contains_key`. -/
def containsKey {α : Type} (l : List (Nat × α)) (k : Nat) : Bool :=
  (lookupKey l k).isSome

/-- `HashMap::insert`: replace the binding of an existing key in place,
otherwise add a new binding. -/
def insertKey {α : Type} : List (Nat × α) → Nat → α → List (Nat × α)
  | [], k, v => [(k, v)]
  | p :: t, k, v => if p.1 = k then (k, v) :: t else p :: insertKey t k v

/-- `HashMap::remove`: drop the binding of a key (first occurrence). -/
def removeKey {α : Type} : List (Nat × α) → Nat → List (Nat × α)
  | [], _ => []
  | p :: t, k => if p.1 = k then t else p :: removeKey t k

/-- Remove a list of keys one by one (the `delete_epic` story loop). -/
def removeAll {α : Type} (l : List (Nat × α)) (ks : List Nat) : List (Nat × α) :=
  ks.foldl removeKey l

/-! ### The store operations of `JiraDatabase` (`db.rs`)

Each Rust method is `read_db` / mutate / `write_db`; the pure mutation
between the two I/O calls is modelled here.  A returned `.error` means the
method exited through `?` before reaching `write_db`. -/

/-- `JiraDatabase::create_epic` (db.rs:167): allocate the next ID, bump
`last_item_id`, insert the epic as given (its `stories` field passes
through untouched), persist, return the ID. -/
def create_epic (db : DBState) (epic : Epic) : DBState × Nat :=
  let new_id := (db.last_item_id + 1) % u32Mod
  ({ db with last_item_id := new_id, epics := insertKey db.epics new_id epic }, new_id)

/-- `JiraDatabase::create_story` (db.rs:217): allocate the next ID, bump
`last_item_id` and insert the story into `stories`, then look the epic up;
a missing epic aborts with an error (before any persist), otherwise the
new ID is pushed onto the epic's story list. -/
def create_story (db : DBState) (story : Story) (epic_id : Nat) :
    Except DbError (DBState × Nat) :=
  let new_id := (db.last_item_id + 1) % u32Mod
  let db1 : DBState :=
    { db with last_item_id := new_id, stories := insertKey db.stories new_id story }
  match lookupKey db1.epics epic_id with
  | none => Except.error DbError.epicNotFound
  | some epic =>
      Except.ok
        ({ db1 with
            epics := insertKey db1.epics epic_id
              { epic with stories := epic.stories ++ [new_id] } },
          new_id)

/-- `JiraDatabase::delete_epic` (db.rs:265): a missing epic aborts with an
error; otherwise every story ID in the epic's list is removed from
`stories` and the epic itself is removed from `epics`. -/
def delete_epic (db : DBState) (epic_id : Nat) : Except DbError DBState :=
  match lookupKey db.epics epic_id with
  | none => Except.error DbError.epicNotFound
  | some epic =>
      Except.ok
        { db with
            stories := removeAll db.stories epic.stories,
            epics := removeKey db.epics epic_id }

/-- `JiraDatabase::delete_story` (db.rs:314): a missing epic aborts; a
story ID absent from that epic's own list aborts; otherwise the ID is
removed from the epic's list (first occurrence, as
`position` + `Vec::remove`) and the story from `stories`. -/
def delete_story (db : DBState) (epic_id story_id : Nat) : Except DbError DBState :=
  match lookupKey db.epics epic_id with
  | none => Except.error DbError.epicNotFound
  | some epic =>
      if story_id ∈ epic.stories then
        Except.ok
          { db with
              epics := insertKey db.epics epic_id
                { epic with stories := epic.stories.erase story_id },
              stories := removeKey db.stories story_id }
      else
        Except.error DbError.storyNotFound

/-- `JiraDatabase::update_epic_status` (db.rs:365). -/
def update_epic_status (db : DBState) (epic_id : Nat) (status : Status) :
    Except DbError DBState :=
  match lookupKey db.epics epic_id with
  | none => Except.error DbError.epicNotFound
  | some epic =>
      Except.ok { db with epics := insertKey db.epics epic_id { epic with status := status } }

/-- `JiraDatabase::update_story_status` (db.rs:410). -/
def update_story_status (db : DBState) (story_id : Nat) (status : Status) :
    Except DbError DBState :=
  match lookupKey db.stories story_id with
  | none => Except.error DbError.storyNotFound
  | some story =>
      Except.ok { db with stories := insertKey db.stories story_id { story with status := status } }

/-! ### Operation traces over the store -/

/-- One store mutation request. -/
inductive Op where
  | createEpic : Epic → Op
  | createStory : Story → Nat → Op
  | deleteEpic : Nat → Op
  | deleteStory : Nat → Nat → Op
  | updateEpicStatus : Nat → Status → Op
  | updateStoryStatus : Nat → Status → Op
deriving DecidableEq, Repr

/-- Apply one operation; a returned ID (for the create operations) rides
along in the second component. -/
def applyOp (db : DBState) : Op → Except DbError (DBState × Option Nat)
  | Op.createEpic e =>
      let r := create_epic db e
      Except.ok (r.1, some r.2)
  | Op.createStory st eid => (create_story db st eid).map (fun r => (r.1, some r.2))
  | Op.deleteEpic eid => (delete_epic db eid).map (fun s => (s, none))
  | Op.deleteStory eid sid => (delete_story db eid sid).map (fun s => (s, none))
  | Op.updateEpicStatus eid st => (update_epic_status db eid st).map (fun s => (s, none))
  | Op.updateStoryStatus sid st => (update_story_status db sid st).map (fun s => (s, none))

/-- The persisted state after attempting one operation: `write_db` only
runs on success, so a failed operation leaves the state as it was. -/
def stepOp (db : DBState) (op : Op) : DBState :=
  match applyOp db op with
  | Except.ok (db', _) => db'
  | Except.error _ => db

/-- The persisted state after a whole trace of operations. -/
def runOps (db : DBState) (ops : List Op) : DBState :=
  ops.foldl stepOp db

/-- Run a trace collecting the IDs returned by the successful create
operations, in order. -/
def runIds : DBState → List Op → DBState × List Nat
  | db, [] => (db, [])
  | db, op :: rest =>
      match applyOp db op with
      | Except.ok (db', some id) =>
          let r := runIds db' rest
          (r.1, id :: r.2)
      | Except.ok (db', none) => runIds db' rest
      | Except.error _ => runIds db rest

/-- The empty store: `last_item_id = 0`, no epics, no stories. -/
def emptyDB : DBState :=
  { last_item_id := 0, epics := [], stories := [] }

/-! ### Referential-integrity invariants (spec section 3) -/

/-- Number of epics whose story list mentions `sid` (each key occurs at
most once in a well-formed map, so entries are epics). -/
def countRefs (epics : List (Nat × Epic)) (sid : Nat) : Nat :=
  epics.countP (fun p => decide (sid ∈ p.2.stories))

/-- Invariant 1: every ID appearing in some epic's story list exists as a
key in `stories`. -/
def refInt1 (db : DBState) : Prop :=
  ∀ p ∈ db.epics, ∀ sid ∈ p.2.stories, containsKey db.stories sid = true

/-- Invariant 2: every key in `stories` is referenced by the story list of
exactly one epic. -/
def refInt2 (db : DBState) : Prop :=
  ∀ q ∈ db.stories, countRefs db.epics q.1 = 1

instance (db : DBState) : Decidable (refInt1 db) := by
  unfold refInt1; infer_instance

instance (db : DBState) : Decidable (refInt2 db) := by
  unfold refInt2; infer_instance

/-! ### Input parsing (`str::parse::<u32>`)

Rust's `u32::from_str` delegates to `from_str_radix(s, 10)`: an optional
leading `+`, then a non-empty run of ASCII digits, rejecting anything
else; leading zeros are accepted; values above `u32::MAX` overflow to an
error. -/

/-- Model of `input.parse::<u32>()`. -/
def parse_u32 (s : List Char) : Option Nat :=
  let digits : List Char :=
    match s with
    | '+' :: rest => rest
    | _ => s
  if digits = [] then none
  else if digits.all Char.isDigit then
    let v := digits.foldl (fun acc c => acc * 10 + (c.toNat - 48)) 0
    if v < u32Mod then some v else none
  else none

/-! ### Screen input interpretation (`ui/pages/mod.rs`)

Each `handle_input` method first runs `self.db.read_db()?` (except
`StoryDetail`, which never touches the store) and then matches on the
already-trimmed input string.  The pure match is modelled as a function of
the data the method extracted from the read, and a second function threads
an arbitrary read result through `?` exactly as the source does. -/

namespace HomePage

/-- `HomePage::handle_input` (mod.rs:236), after the `read_db` succeeded
with epic map `epics`: `q` exits, `c` creates an epic, a token parsing as
a `u32` that is a live epic key navigates to that epic, anything else is
no action. -/
def handle_input (epics : List (Nat × Epic)) (input : List Char) : Option Action :=
  if input = ['q'] then some Action.Exit
  else if input = ['c'] then some Action.CreateEpic
  else
    match parse_u32 input with
    | some epic_id =>
        if containsKey epics epic_id then some (Action.NavigateToEpicDetail epic_id)
        else none
    | none => none

/-- `HomePage::handle_input` including the leading `self.db.read_db()?`:
the whole method fails when the read fails. -/
def handle_input_db (read : Except DbError DBState) (input : List Char) :
    Except DbError (Option Action) :=
  match read with
  | Except.error e => Except.error e
  | Except.ok st => Except.ok (handle_input st.epics input)

end HomePage

namespace EpicDetail

/-- `EpicDetail::handle_input` (mod.rs:432), after the `read_db` succeeded
with global story map `stories`: `p`/`u`/`d`/`c` are fixed commands, a
token parsing as a `u32` that is a key of the global story map navigates
to that story, anything else is no action. -/
def handle_input (epic_id : Nat) (stories : List (Nat × Story)) (input : List Char) :
    Option Action :=
  if input = ['p'] then some Action.NavigateToPreviousPage
  else if input = ['u'] then some (Action.UpdateEpicStatus epic_id)
  else if input = ['d'] then some (Action.DeleteEpic epic_id)
  else if input = ['c'] then some (Action.CreateStory epic_id)
  else
    match parse_u32 input with
    | some story_id =>
        if containsKey stories story_id then
          some (Action.NavigateToStoryDetail epic_id story_id)
        else none
    | none => none

/-- `EpicDetail::handle_input` including the leading `self.db.read_db()?`. -/
def handle_input_db (read : Except DbError DBState) (epic_id : Nat) (input : List Char) :
    Except DbError (Option Action) :=
  match read with
  | Except.error e => Except.error e
  | Except.ok st => Except.ok (handle_input epic_id st.stories input)

end EpicDetail

namespace StoryDetail

/-- `StoryDetail::handle_input` (mod.rs:603): a pure match on the input,
never reading the store and never failing. -/
def handle_input (epic_id story_id : Nat) (input : List Char) :
    Except DbError (Option Action) :=
  Except.ok
    (if input = ['p'] then some Action.NavigateToPreviousPage
     else if input = ['u'] then some (Action.UpdateStoryStatus story_id)
     else if input = ['d'] then some (Action.DeleteStory epic_id story_id)
     else none)

end StoryDetail

/-! ### Column formatting (`ui/pages/page_helpers.rs`) -/

/-- UTF-8 byte length of a text, matching Rust `str::len`. -/
def byteLen (text : List Char) : Nat :=
  (text.map Char.utf8Size).sum

/-- The `ellipse` crate's `truncate_ellipse`: texts of at most `len`
characters pass through; otherwise the first `len` characters plus three
dots (with a special case returning the empty string for `len = 0`). -/
def truncate_ellipse (text : List Char) (len : Nat) : List Char :=
  if text.length ≤ len then text
  else if len = 0 then []
  else text.take len ++ ['.', '.', '.']

/-- `get_column_string` (page_helpers.rs:30): compare the byte length with
the column width; equal passes through, shorter right-pads with spaces,
longer yields 0–3 literal dots at widths 0–3 and otherwise truncates to
`width - 3` characters plus an ellipsis. -/
def get_column_string (text : List Char) (width : Nat) : List Char :=
  let len := byteLen text
  if len = width then text
  else if len < width then text ++ List.replicate (width - len) ' '
  else
    if width = 0 then []
    else if width = 1 then ['.']
    else if width = 2 then ['.', '.']
    else if width = 3 then ['.', '.', '.']
    else truncate_ellipse text (width - 3)

/-- Well-formedness of a store state: the two maps have duplicate-free
keys (as real hash maps do), all keys are bounded by the allocation
counter, story lists are duplicate-free, and the two referential-integrity
invariants hold.  This is the inductive strengthening used to prove the
invariants along operation traces. -/
def goodState (db : DBState) : Prop :=
  (keys db.epics).Nodup ∧ (keys db.stories).Nodup ∧
  (∀ p ∈ db.epics, p.1 ≤ db.last_item_id) ∧
  (∀ q ∈ db.stories, q.1 ≤ db.last_item_id) ∧
  (∀ p ∈ db.epics, p.2.stories.Nodup) ∧
  refInt1 db ∧ refInt2 db

/-! ## Lemmas about the association-list map model -/

theorem mem_keys_iff_lookup {α : Type} (l : List (Nat × α)) (k : Nat) :
    k ∈ keys l ↔ (lookupKey l k).isSome := by
  induction l with
  | nil => simp [keys, lookupKey]
  | cons p t ih =>
      by_cases h : p.1 = k
      · simp [keys, lookupKey, h]
      · simpa [keys, lookupKey, h, Ne.symm h] using ih

theorem lookup_eq_none_of_not_mem {α : Type} {l : List (Nat × α)} {k : Nat}
    (h : k ∉ keys l) : lookupKey l k = none := by
  have := (mem_keys_iff_lookup l k).not.mp h
  cases hl : lookupKey l k with
  | none => rfl
  | some v => rw [hl] at this; simp at this

theorem mem_keys_of_lookup_some {α : Type} {l : List (Nat × α)} {k : Nat} {v : α}
    (h : lookupKey l k = some v) : k ∈ keys l := by
  rw [mem_keys_iff_lookup, h]; rfl

theorem contains_eq_false_iff {α : Type} (l : List (Nat × α)) (k : Nat) :
    containsKey l k = false ↔ lookupKey l k = none := by
  unfold containsKey
  cases lookupKey l k <;> simp

theorem lookup_insert_self {α : Type} (l : List (Nat × α)) (k : Nat) (v : α) :
    lookupKey (insertKey l k v) k = some v := by
  induction l with
  | nil => simp [insertKey, lookupKey]
  | cons p t ih =>
      by_cases h : p.1 = k
      · simp [insertKey, lookupKey, h]
      · simp [insertKey, lookupKey, h, ih]

theorem lookup_insert_ne {α : Type} (l : List (Nat × α)) {k k' : Nat} (v : α)
    (h : k' ≠ k) : lookupKey (insertKey l k v) k' = lookupKey l k' := by
  induction l with
  | nil => simp [insertKey, lookupKey, Ne.symm h]
  | cons p t ih =>
      by_cases hp : p.1 = k
      · subst hp
        simp [insertKey, lookupKey, Ne.symm h]
      · by_cases hp' : p.1 = k'
        · simp [insertKey, lookupKey, hp, hp', h]
        · simp [insertKey, lookupKey, hp, hp', ih]

theorem insert_of_lookup_none {α : Type} {l : List (Nat × α)} {k : Nat}
    (h : lookupKey l k = none) (v : α) : insertKey l k v = l ++ [(k, v)] := by
  induction l with
  | nil => simp [insertKey]
  | cons p t ih =>
      by_cases hp : p.1 = k
      · simp [lookupKey, hp] at h
      · simp [lookupKey, hp] at h
        simp [insertKey, hp, ih h]

theorem remove_of_lookup_none {α : Type} {l : List (Nat × α)} {k : Nat}
    (h : lookupKey l k = none) : removeKey l k = l := by
  induction l with
  | nil => simp [removeKey]
  | cons p t ih =>
      by_cases hp : p.1 = k
      · simp [lookupKey, hp] at h
      · simp [lookupKey, hp] at h
        simp [removeKey, hp, ih h]

/-- Decomposition of a map at a present key: the list splits as
`l₁ ++ (k, v) :: l₂` with `k` absent from `l₁`, and `insertKey` /
`removeKey` rewrite that middle entry. -/
theorem lookup_some_decomp {α : Type} {l : List (Nat × α)} {k : Nat} {v : α}
    (h : lookupKey l k = some v) :
    ∃ l₁ l₂, l = l₁ ++ (k, v) :: l₂ ∧ k ∉ keys l₁ ∧
      (∀ w, insertKey l k w = l₁ ++ (k, w) :: l₂) ∧
      removeKey l k = l₁ ++ l₂ := by
  induction l with
  | nil => simp [lookupKey] at h
  | cons p t ih =>
      by_cases hp : p.1 = k
      · refine ⟨[], t, ?_, ?_, ?_, ?_⟩
        · simp [lookupKey, hp] at h
          obtain ⟨p₁, p₂⟩ := p
          simp_all
        · simp [keys]
        · intro w; simp [insertKey, hp]
        · simp [removeKey, hp]
      · simp [lookupKey, hp] at h
        obtain ⟨l₁, l₂, hsplit, hmem, hins, hrem⟩ := ih h
        refine ⟨p :: l₁, l₂, by simp [hsplit], ?_, ?_, ?_⟩
        · simp [keys] at hmem ⊢
          exact ⟨fun hk => hp hk.symm, hmem⟩
        · intro w; simp [insertKey, hp, hins w]
        · simp [removeKey, hp, hrem]

theorem lookup_remove_ne {α : Type} (l : List (Nat × α)) {k k' : Nat}
    (h : k' ≠ k) : lookupKey (removeKey l k) k' = lookupKey l k' := by
  induction l with
  | nil => simp [removeKey]
  | cons p t ih =>
      by_cases hp : p.1 = k
      · subst hp
        simp [removeKey, lookupKey, Ne.symm h]
      · by_cases hp' : p.1 = k'
        · simp [removeKey, lookupKey, hp, hp', h]
        · simp [removeKey, lookupKey, hp, hp', ih]

theorem mem_of_mem_removeKey {α : Type} {l : List (Nat × α)} {k : Nat}
    {p : Nat × α} (h : p ∈ removeKey l k) : p ∈ l := by
  induction l with
  | nil => simp [removeKey] at h
  | cons q t ih =>
      by_cases hq : q.1 = k
      · simp [removeKey, hq] at h
        exact List.mem_cons_of_mem _ h
      · simp [removeKey, hq] at h
        rcases h with h | h
        · simp [h]
        · exact List.mem_cons_of_mem _ (ih h)

theorem mem_keys_of_mem {α : Type} {l : List (Nat × α)} {p : Nat × α}
    (h : p ∈ l) : p.1 ∈ keys l :=
  List.mem_map_of_mem Prod.fst h

theorem nodup_keys_insert {α : Type} {l : List (Nat × α)} {k : Nat} (v : α)
    (h : (keys l).Nodup) : (keys (insertKey l k v)).Nodup := by
  cases hl : lookupKey l k with
  | none =>
      rw [insert_of_lookup_none hl]
      have hk : k ∉ keys l := by
        rw [mem_keys_iff_lookup, hl]; simp
      show ((l ++ [(k, v)]).map Prod.fst).Nodup
      rw [List.map_append]
      refine List.Nodup.append h (List.nodup_singleton k) ?_
      intro a ha hb
      simp at hb
      subst hb
      exact hk ha
  | some v₀ =>
      obtain ⟨l₁, l₂, hsplit, -, hins, -⟩ := lookup_some_decomp hl
      rw [hins v]
      rw [hsplit] at h
      simpa [keys] using h

theorem nodup_keys_remove {α : Type} {l : List (Nat × α)} (k : Nat)
    (h : (keys l).Nodup) : (keys (removeKey l k)).Nodup := by
  cases hl : lookupKey l k with
  | none => rwa [remove_of_lookup_none hl]
  | some v₀ =>
      obtain ⟨l₁, l₂, hsplit, -, -, hrem⟩ := lookup_some_decomp hl
      rw [hrem]
      rw [hsplit] at h
      simp only [keys, List.map_append, List.map_cons, List.nodup_append] at h ⊢
      obtain ⟨h₁, h₂, hdis⟩ := h
      exact ⟨h₁, h₂.of_cons, fun _ ha hb => hdis ha (List.mem_cons_of_mem _ hb)⟩

theorem lookup_remove_self {α : Type} {l : List (Nat × α)} {k : Nat}
    (hn : (keys l).Nodup) : lookupKey (removeKey l k) k = none := by
  cases hl : lookupKey l k with
  | none => rwa [remove_of_lookup_none hl]
  | some v₀ =>
      obtain ⟨l₁, l₂, hsplit, hmem, -, hrem⟩ := lookup_some_decomp hl
      rw [hrem]
      rw [hsplit] at hn
      simp only [keys, List.map_append, List.map_cons, List.nodup_append] at hn
      have hk₂ : k ∉ keys l₂ := by
        have := List.nodup_cons.mp hn.2.1
        simpa [keys] using this.1
      apply lookup_eq_none_of_not_mem
      simp only [keys, List.map_append, List.mem_append]
      rintro (h | h)
      · exact hmem h
      · exact hk₂ h

theorem removeAll_cons {α : Type} (l : List (Nat × α)) (a : Nat) (ks : List Nat) :
    removeAll l (a :: ks) = removeAll (removeKey l a) ks := rfl

theorem mem_of_mem_removeAll {α : Type} {ks : List Nat} {l : List (Nat × α)}
    {p : Nat × α} (h : p ∈ removeAll l ks) : p ∈ l := by
  induction ks generalizing l with
  | nil => simpa [removeAll] using h
  | cons a ks ih =>
      rw [removeAll_cons] at h
      exact mem_of_mem_removeKey (ih h)

theorem nodup_keys_removeAll {α : Type} (ks : List Nat) {l : List (Nat × α)}
    (h : (keys l).Nodup) : (keys (removeAll l ks)).Nodup := by
  induction ks generalizing l with
  | nil => simpa [removeAll] using h
  | cons a ks ih =>
      rw [removeAll_cons]
      exact ih (nodup_keys_remove a h)

theorem lookup_removeAll_of_none {α : Type} (ks : List Nat) {l : List (Nat × α)}
    {k : Nat} (h : lookupKey l k = none) : lookupKey (removeAll l ks) k = none := by
  induction ks generalizing l with
  | nil => simpa [removeAll] using h
  | cons a ks ih =>
      rw [removeAll_cons]
      by_cases ha : k = a
      · subst ha
        exact ih (by rw [remove_of_lookup_none h]; exact h)
      · exact ih (by rw [lookup_remove_ne l ha]; exact h)

theorem lookup_removeAll_not_mem {α : Type} {ks : List Nat} (l : List (Nat × α))
    {k : Nat} (h : k ∉ ks) : lookupKey (removeAll l ks) k = lookupKey l k := by
  induction ks generalizing l with
  | nil => simp [removeAll]
  | cons a ks ih =>
      rw [removeAll_cons]
      have hka : k ≠ a := fun hk => h (by simp [hk])
      rw [ih (removeKey l a) (fun hk => h (List.mem_cons_of_mem _ hk)),
        lookup_remove_ne l hka]

theorem lookup_removeAll_mem {α : Type} {ks : List Nat} {l : List (Nat × α)}
    {k : Nat} (hn : (keys l).Nodup) (h : k ∈ ks) :
    lookupKey (removeAll l ks) k = none := by
  induction ks generalizing l with
  | nil => simp at h
  | cons a ks ih =>
      rw [removeAll_cons]
      by_cases ha : k = a
      · subst ha
        exact lookup_removeAll_of_none ks (lookup_remove_self hn)
      · exact ih (nodup_keys_remove a hn) (by rcases List.mem_cons.mp h with h | h
                                              · exact absurd h ha
                                              · exact h)

/-- Counting through `insertKey` at a present key: the new entry replaces
the old one and every other entry is untouched. -/
theorem countP_insert {α : Type} {l : List (Nat × α)} {k : Nat} {v : α}
    (hl : lookupKey l k = some v) (w : α) (p : Nat × α → Bool) :
    (insertKey l k w).countP p + (if p (k, v) then 1 else 0) =
      l.countP p + (if p (k, w) then 1 else 0) := by
  obtain ⟨l₁, l₂, hsplit, -, hins, -⟩ := lookup_some_decomp hl
  rw [hins w, hsplit]
  simp [List.countP_append, List.countP_cons]
  omega

/-- Counting through `removeKey` at a present key: exactly that entry's
contribution disappears. -/
theorem countP_remove {α : Type} {l : List (Nat × α)} {k : Nat} {v : α}
    (hl : lookupKey l k = some v) (p : Nat × α → Bool) :
    (removeKey l k).countP p + (if p (k, v) then 1 else 0) = l.countP p := by
  obtain ⟨l₁, l₂, hsplit, -, -, hrem⟩ := lookup_some_decomp hl
  rw [hrem, hsplit]
  simp [List.countP_append, List.countP_cons]
  omega

theorem countP_append_singleton {α : Type} (l : List (Nat × α)) (q : Nat × α)
    (p : Nat × α → Bool) :
    (l ++ [q]).countP p = l.countP p + (if p q then 1 else 0) := by
  simp [List.countP_append, List.countP_cons]

theorem mem_of_lookup_some {α : Type} {l : List (Nat × α)} {k : Nat} {v : α}
    (h : lookupKey l k = some v) : (k, v) ∈ l := by
  induction l with
  | nil => simp [lookupKey] at h
  | cons p t ih =>
      by_cases hp : p.1 = k
      · obtain ⟨p₁, p₂⟩ := p
        have hk : p₁ = k := hp
        subst hk
        simp [lookupKey] at h
        subst h
        exact List.mem_cons_self _ _
      · simp [lookupKey, hp] at h
        exact List.mem_cons_of_mem _ (ih h)

theorem lookup_none_of_bound {α : Type} {l : List (Nat × α)} {n k : Nat}
    (hb : ∀ p ∈ l, p.1 ≤ n) (hk : n < k) : lookupKey l k = none := by
  cases hl : lookupKey l k with
  | none => rfl
  | some v =>
      have hkn := hb _ (mem_of_lookup_some hl)
      simp at hkn
      omega

theorem mem_insertKey {α : Type} {l : List (Nat × α)} {k : Nat} {v : α} {p : Nat × α}
    (h : p ∈ insertKey l k v) : p ∈ l ∨ p = (k, v) := by
  induction l with
  | nil =>
      simp [insertKey] at h
      right
      exact h
  | cons q t ih =>
      by_cases hq : q.1 = k
      · simp [insertKey, hq] at h
        rcases h with h | h
        · right; exact h
        · left; exact List.mem_cons_of_mem _ h
      · simp [insertKey, hq] at h
        rcases h with h | h
        · left; simp [h]
        · rcases ih h with h | h
          · left; exact List.mem_cons_of_mem _ h
          · right; exact h

theorem contains_insert_self {α : Type} (l : List (Nat × α)) (k : Nat) (v : α) :
    containsKey (insertKey l k v) k = true := by
  unfold containsKey
  rw [lookup_insert_self]
  rfl

theorem contains_insert_of_contains {α : Type} {l : List (Nat × α)} {k k' : Nat} (v : α)
    (h : containsKey l k' = true) : containsKey (insertKey l k v) k' = true := by
  by_cases hk : k' = k
  · subst hk
    exact contains_insert_self l k' v
  · unfold containsKey at h ⊢
    rw [lookup_insert_ne _ v hk]
    exact h

/-- Story IDs referenced by any epic are bounded by the allocation
counter in a well-formed state. -/
theorem refs_le_last {db : DBState} (h : goodState db) :
    ∀ p ∈ db.epics, ∀ sid ∈ p.2.stories, sid ≤ db.last_item_id := by
  intro p hp sid hsid
  have hc := h.2.2.2.2.2.1 p hp sid hsid
  unfold containsKey at hc
  cases hl : lookupKey db.stories sid with
  | none => rw [hl] at hc; simp at hc
  | some v => exact h.2.2.2.1 _ (mem_of_lookup_some hl)

/-- In a well-formed state, a story referenced by the epic entry in the
middle of a split cannot also be referenced by any other entry. -/
theorem two_refs_absurd {db : DBState} (h : goodState db) {l₁ l₂ : List (Nat × Epic)}
    {eid : Nat} {ep : Epic} (hsplit : db.epics = l₁ ++ (eid, ep) :: l₂) {sid : Nat}
    (hsid : sid ∈ ep.stories) {p : Nat × Epic} (hp : p ∈ l₁ ++ l₂)
    (hps : sid ∈ p.2.stories) : False := by
  have hmid : (eid, ep) ∈ db.epics := by
    rw [hsplit]
    exact List.mem_append_right _ (List.mem_cons_self _ _)
  have hc : containsKey db.stories sid = true := h.2.2.2.2.2.1 (eid, ep) hmid sid hsid
  unfold containsKey at hc
  cases hl : lookupKey db.stories sid with
  | none => rw [hl] at hc; simp at hc
  | some v =>
      have h2q := h.2.2.2.2.2.2 (sid, v) (mem_of_lookup_some hl)
      unfold countRefs at h2q
      rw [hsplit, List.countP_append, List.countP_cons] at h2q
      have hpos : 0 < (l₁ ++ l₂).countP (fun q => decide (sid ∈ q.2.stories)) :=
        List.countP_pos_iff.mpr ⟨p, hp, by simpa using hps⟩
      rw [List.countP_append] at hpos
      simp [hsid] at h2q
      omega

/-! ## Preservation of well-formedness by each store operation -/

theorem good_insert_epic {db : DBState} {e : Epic} {n : Nat} (h : goodState db)
    (hn : db.last_item_id < n) (he : e.stories = []) :
    goodState { db with last_item_id := n, epics := insertKey db.epics n e } := by
  obtain ⟨hne, hns, hbe, hbs, hsl, h1, h2⟩ := h
  have hfresh : lookupKey db.epics n = none := lookup_none_of_bound hbe hn
  have hins : insertKey db.epics n e = db.epics ++ [(n, e)] := insert_of_lookup_none hfresh e
  refine ⟨nodup_keys_insert e hne, hns, ?_, ?_, ?_, ?_, ?_⟩
  · intro p hp
    rcases mem_insertKey hp with hold | rfl
    · exact le_trans (hbe p hold) (le_of_lt hn)
    · exact le_refl n
  · intro q hq
    exact le_trans (hbs q hq) (le_of_lt hn)
  · intro p hp
    rcases mem_insertKey hp with hold | rfl
    · exact hsl p hold
    · show e.stories.Nodup
      rw [he]
      exact List.nodup_nil
  · intro p hp sid hsid
    rcases mem_insertKey hp with hold | rfl
    · exact h1 p hold sid hsid
    · rw [show (n, e).2 = e from rfl, he] at hsid
      simp at hsid
  · intro q hq
    show countRefs (insertKey db.epics n e) q.1 = 1
    unfold countRefs
    rw [hins, countP_append_singleton]
    have hz : decide (q.1 ∈ (n, e).2.stories) = false := by simp [he]
    rw [hz]
    simpa using h2 q hq

theorem good_create_story {db : DBState} {st : Story} {eid n : Nat} {ep : Epic}
    (h : goodState db) (hn : db.last_item_id < n)
    (hep : lookupKey db.epics eid = some ep) :
    goodState { last_item_id := n,
                epics := insertKey db.epics eid { ep with stories := ep.stories ++ [n] },
                stories := insertKey db.stories n st } := by
  have hfreshS : lookupKey db.stories n = none := lookup_none_of_bound h.2.2.2.1 hn
  have hinsS : insertKey db.stories n st = db.stories ++ [(n, st)] :=
    insert_of_lookup_none hfreshS st
  obtain ⟨l₁, l₂, hsplit, hl₁, hinsE, -⟩ := lookup_some_decomp hep
  have hmemEp : (eid, ep) ∈ db.epics := mem_of_lookup_some hep
  have heid_le : eid ≤ db.last_item_id := h.2.2.1 _ hmemEp
  have hrefs : ∀ p ∈ db.epics, ∀ sid ∈ p.2.stories, sid ≤ db.last_item_id := refs_le_last h
  refine ⟨nodup_keys_insert _ h.1, nodup_keys_insert _ h.2.1, ?_, ?_, ?_, ?_, ?_⟩
  · intro p hp
    rcases mem_insertKey hp with hold | rfl
    · exact le_trans (h.2.2.1 p hold) (le_of_lt hn)
    · exact le_trans heid_le (le_of_lt hn)
  · intro q hq
    rcases mem_insertKey hq with hold | rfl
    · exact le_trans (h.2.2.2.1 q hold) (le_of_lt hn)
    · exact le_refl n
  · intro p hp
    rcases mem_insertKey hp with hold | rfl
    · exact h.2.2.2.2.1 p hold
    · show (ep.stories ++ [n]).Nodup
      rw [List.nodup_append]
      refine ⟨h.2.2.2.2.1 _ hmemEp, List.nodup_singleton n, ?_⟩
      intro a ha hb
      simp at hb
      subst hb
      have := hrefs _ hmemEp a ha
      omega
  · intro p hp sid hsid
    show containsKey (insertKey db.stories n st) sid = true
    rcases mem_insertKey hp with hold | rfl
    · exact contains_insert_of_contains st (h.2.2.2.2.2.1 p hold sid hsid)
    · rcases List.mem_append.mp hsid with hs | hs
      · exact contains_insert_of_contains st (h.2.2.2.2.2.1 (eid, ep) hmemEp sid hs)
      · simp at hs
        subst hs
        exact contains_insert_self _ _ _
  · intro q hq
    rw [hinsS] at hq
    rcases List.mem_append.mp hq with hold | hnew
    · have hq_le : q.1 ≤ db.last_item_id := h.2.2.2.1 q hold
      have h2q := h.2.2.2.2.2.2 q hold
      show countRefs (insertKey db.epics eid { ep with stories := ep.stories ++ [n] }) q.1 = 1
      unfold countRefs at h2q ⊢
      have hcnt := countP_insert hep { ep with stories := ep.stories ++ [n] }
        (fun r => decide (q.1 ∈ r.2.stories))
      have hq_ne : q.1 ≠ n := by omega
      by_cases hmem : q.1 ∈ ep.stories <;>
        simp [hmem, hq_ne] at hcnt <;>
        omega
    · simp at hnew
      subst hnew
      show countRefs (insertKey db.epics eid { ep with stories := ep.stories ++ [n] }) n = 1
      unfold countRefs
      rw [hinsE { ep with stories := ep.stories ++ [n] }, List.countP_append,
        List.countP_cons]
      have hz₁ : l₁.countP (fun r => decide (n ∈ r.2.stories)) = 0 := by
        rw [List.countP_eq_zero]
        intro r hr
        have hrd : r ∈ db.epics := by rw [hsplit]; exact List.mem_append_left _ hr
        have := hrefs r hrd n
        simp only [decide_eq_true_eq]
        intro hmem
        have := this hmem
        omega
      have hz₂ : l₂.countP (fun r => decide (n ∈ r.2.stories)) = 0 := by
        rw [List.countP_eq_zero]
        intro r hr
        have hrd : r ∈ db.epics := by
          rw [hsplit]
          exact List.mem_append_right _ (List.mem_cons_of_mem _ hr)
        have := hrefs r hrd n
        simp only [decide_eq_true_eq]
        intro hmem
        have := this hmem
        omega
      simp [hz₁, hz₂]

theorem good_delete_epic {db : DBState} {eid : Nat} {ep : Epic} (h : goodState db)
    (hep : lookupKey db.epics eid = some ep) :
    goodState { db with stories := removeAll db.stories ep.stories,
                        epics := removeKey db.epics eid } := by
  obtain ⟨l₁, l₂, hsplit, hl₁, -, hrem⟩ := lookup_some_decomp hep
  refine ⟨nodup_keys_remove eid h.1, nodup_keys_removeAll _ h.2.1, ?_, ?_, ?_, ?_, ?_⟩
  · intro p hp
    exact h.2.2.1 p (mem_of_mem_removeKey hp)
  · intro q hq
    exact h.2.2.2.1 q (mem_of_mem_removeAll hq)
  · intro p hp
    exact h.2.2.2.2.1 p (mem_of_mem_removeKey hp)
  · intro p hp sid hsid
    show containsKey (removeAll db.stories ep.stories) sid = true
    rw [hrem] at hp
    have hpd : p ∈ db.epics := by
      rw [hsplit]
      rcases List.mem_append.mp hp with hp | hp
      · exact List.mem_append_left _ hp
      · exact List.mem_append_right _ (List.mem_cons_of_mem _ hp)
    have hsid_not : sid ∉ ep.stories := fun hs => two_refs_absurd h hsplit hs hp hsid
    have hcont := h.2.2.2.2.2.1 p hpd sid hsid
    unfold containsKey at hcont ⊢
    rw [lookup_removeAll_not_mem db.stories hsid_not]
    exact hcont
  · intro q hq
    have hqd : q ∈ db.stories := mem_of_mem_removeAll hq
    have hq1 : q.1 ∈ keys (removeAll db.stories ep.stories) := mem_keys_of_mem hq
    have hnot : q.1 ∉ ep.stories := by
      intro hmem
      have hzero := lookup_removeAll_mem (l := db.stories) h.2.1 hmem
      rw [mem_keys_iff_lookup, hzero] at hq1
      simp at hq1
    show countRefs (removeKey db.epics eid) q.1 = 1
    have h2q := h.2.2.2.2.2.2 q hqd
    unfold countRefs at h2q ⊢
    rw [hrem, List.countP_append]
    rw [hsplit, List.countP_append, List.countP_cons] at h2q
    simp [hnot] at h2q
    omega

theorem good_delete_story {db : DBState} {eid sid : Nat} {ep : Epic} (h : goodState db)
    (hep : lookupKey db.epics eid = some ep) (hsid : sid ∈ ep.stories) :
    goodState { db with
        epics := insertKey db.epics eid { ep with stories := ep.stories.erase sid },
        stories := removeKey db.stories sid } := by
  have hmemEp : (eid, ep) ∈ db.epics := mem_of_lookup_some hep
  have hepnd : ep.stories.Nodup := h.2.2.2.2.1 _ hmemEp
  obtain ⟨l₁, l₂, hsplit, hl₁, hinsE, -⟩ := lookup_some_decomp hep
  have hcontS : containsKey db.stories sid = true := h.2.2.2.2.2.1 (eid, ep) hmemEp sid hsid
  have hlookS : ∃ v, lookupKey db.stories sid = some v := by
    unfold containsKey at hcontS
    cases hl : lookupKey db.stories sid with
    | none => rw [hl] at hcontS; simp at hcontS
    | some v => exact ⟨v, rfl⟩
  obtain ⟨v, hlookS⟩ := hlookS
  obtain ⟨m₁, m₂, hsplitS, hm₁, -, hremS⟩ := lookup_some_decomp hlookS
  have hmem_epics' : ∀ p, p ∈ insertKey db.epics eid { ep with stories := ep.stories.erase sid } →
      (p ∈ l₁ ++ l₂ ∧ p ∈ db.epics) ∨ p = (eid, { ep with stories := ep.stories.erase sid }) := by
    intro p hp
    rw [hinsE] at hp
    rcases List.mem_append.mp hp with hp | hp
    · refine Or.inl ⟨List.mem_append_left _ hp, ?_⟩
      rw [hsplit]
      exact List.mem_append_left _ hp
    · rcases List.mem_cons.mp hp with hp | hp
      · exact Or.inr hp
      · refine Or.inl ⟨List.mem_append_right _ hp, ?_⟩
        rw [hsplit]
        exact List.mem_append_right _ (List.mem_cons_of_mem _ hp)
  refine ⟨nodup_keys_insert _ h.1, nodup_keys_remove sid h.2.1, ?_, ?_, ?_, ?_, ?_⟩
  · intro p hp
    rcases hmem_epics' p hp with ⟨-, hold⟩ | rfl
    · exact h.2.2.1 p hold
    · exact h.2.2.1 (eid, ep) hmemEp
  · intro q hq
    exact h.2.2.2.1 q (mem_of_mem_removeKey hq)
  · intro p hp
    rcases hmem_epics' p hp with ⟨-, hold⟩ | rfl
    · exact h.2.2.2.2.1 p hold
    · exact hepnd.erase sid
  · intro p hp sid' hsid'
    show containsKey (removeKey db.stories sid) sid' = true
    rcases hmem_epics' p hp with ⟨hside, hold⟩ | rfl
    · have hne : sid' ≠ sid := by
        intro heq
        subst heq
        exact two_refs_absurd h hsplit hsid hside hsid'
      have hcont := h.2.2.2.2.2.1 p hold sid' hsid'
      unfold containsKey at hcont ⊢
      rw [lookup_remove_ne db.stories hne]
      exact hcont
    · have herase := (hepnd.mem_erase_iff).mp hsid'
      have hcont := h.2.2.2.2.2.1 (eid, ep) hmemEp sid' herase.2
      unfold containsKey at hcont ⊢
      rw [lookup_remove_ne db.stories herase.1]
      exact hcont
  · intro q hq
    rw [hremS] at hq
    have hqd : q ∈ db.stories := by
      rw [hsplitS]
      rcases List.mem_append.mp hq with hq | hq
      · exact List.mem_append_left _ hq
      · exact List.mem_append_right _ (List.mem_cons_of_mem _ hq)
    have hq_ne : q.1 ≠ sid := by
      have hnd := h.2.1
      rw [hsplitS] at hnd
      simp only [keys, List.map_append, List.map_cons, List.nodup_append] at hnd
      intro heq
      rcases List.mem_append.mp hq with hq | hq
      · exact hnd.2.2 (heq ▸ mem_keys_of_mem hq) (List.mem_cons_self _ _)
      · exact (List.nodup_cons.mp hnd.2.1).1 (heq ▸ mem_keys_of_mem hq)
    have h2q := h.2.2.2.2.2.2 q hqd
    show countRefs (insertKey db.epics eid { ep with stories := ep.stories.erase sid }) q.1 = 1
    unfold countRefs at h2q ⊢
    have hcnt := countP_insert hep { ep with stories := ep.stories.erase sid }
      (fun r => decide (q.1 ∈ r.2.stories))
    have hiff : q.1 ∈ ep.stories.erase sid ↔ q.1 ∈ ep.stories := List.mem_erase_of_ne hq_ne
    by_cases hmem : q.1 ∈ ep.stories <;>
      simp [hmem, hiff] at hcnt <;>
      omega

theorem good_update_epic {db : DBState} {eid : Nat} {ep : Epic} {st : Status}
    (h : goodState db) (hep : lookupKey db.epics eid = some ep) :
    goodState { db with epics := insertKey db.epics eid { ep with status := st } } := by
  have hmemEp : (eid, ep) ∈ db.epics := mem_of_lookup_some hep
  refine ⟨nodup_keys_insert _ h.1, h.2.1, ?_, h.2.2.2.1, ?_, ?_, ?_⟩
  · intro p hp
    rcases mem_insertKey hp with hold | rfl
    · exact h.2.2.1 p hold
    · exact h.2.2.1 (eid, ep) hmemEp
  · intro p hp
    rcases mem_insertKey hp with hold | rfl
    · exact h.2.2.2.2.1 p hold
    · exact h.2.2.2.2.1 (eid, ep) hmemEp
  · intro p hp sid hsid
    rcases mem_insertKey hp with hold | rfl
    · exact h.2.2.2.2.2.1 p hold sid hsid
    · exact h.2.2.2.2.2.1 (eid, ep) hmemEp sid hsid
  · intro q hq
    have h2q := h.2.2.2.2.2.2 q hq
    show countRefs (insertKey db.epics eid { ep with status := st }) q.1 = 1
    unfold countRefs at h2q ⊢
    have hcnt := countP_insert hep { ep with status := st }
      (fun r => decide (q.1 ∈ r.2.stories))
    by_cases hmem : q.1 ∈ ep.stories <;>
      simp [hmem] at hcnt <;>
      omega

theorem good_update_story {db : DBState} {sid : Nat} {st₀ : Story} {st : Status}
    (h : goodState db) (hst : lookupKey db.stories sid = some st₀) :
    goodState { db with stories := insertKey db.stories sid { st₀ with status := st } } := by
  have hmemSt : (sid, st₀) ∈ db.stories := mem_of_lookup_some hst
  refine ⟨h.1, nodup_keys_insert _ h.2.1, h.2.2.1, ?_, h.2.2.2.2.1, ?_, ?_⟩
  · intro q hq
    rcases mem_insertKey hq with hold | rfl
    · exact h.2.2.2.1 q hold
    · exact h.2.2.2.1 (sid, st₀) hmemSt
  · intro p hp sid' hsid'
    exact contains_insert_of_contains _ (h.2.2.2.2.2.1 p hp sid' hsid')
  · intro q hq
    rcases mem_insertKey hq with hold | rfl
    · exact h.2.2.2.2.2.2 q hold
    · exact h.2.2.2.2.2.2 (sid, st₀) hmemSt

/-- One attempted operation preserves well-formedness as long as the next
allocation cannot wrap the 32-bit counter and any created epic carries an
empty story list; the counter grows by at most 1. -/
theorem stepOp_good {db : DBState} {op : Op} (h : goodState db)
    (hov : db.last_item_id + 1 < u32Mod)
    (hop : ∀ e, op = Op.createEpic e → e.stories = []) :
    goodState (stepOp db op) ∧ (stepOp db op).last_item_id ≤ db.last_item_id + 1 := by
  have hmod : (db.last_item_id + 1) % u32Mod = db.last_item_id + 1 := Nat.mod_eq_of_lt hov
  cases op with
  | createEpic e =>
      have he := hop e rfl
      have hres : stepOp db (Op.createEpic e) =
          { db with last_item_id := db.last_item_id + 1,
                    epics := insertKey db.epics (db.last_item_id + 1) e } := by
        unfold stepOp applyOp create_epic
        simp [hmod]
      rw [hres]
      exact ⟨good_insert_epic h (Nat.lt_succ_self _) he, le_refl _⟩
  | createStory st eid =>
      cases hl : lookupKey db.epics eid with
      | none =>
          have hres : stepOp db (Op.createStory st eid) = db := by
            unfold stepOp applyOp create_story
            simp [hl, Except.map]
          rw [hres]
          exact ⟨h, Nat.le_succ _⟩
      | some ep =>
          have hres : stepOp db (Op.createStory st eid) =
              { last_item_id := db.last_item_id + 1,
                epics := insertKey db.epics eid
                  { ep with stories := ep.stories ++ [db.last_item_id + 1] },
                stories := insertKey db.stories (db.last_item_id + 1) st } := by
            unfold stepOp applyOp create_story
            simp [hmod, hl, Except.map]
          rw [hres]
          exact ⟨good_create_story h (Nat.lt_succ_self _) hl, le_refl _⟩
  | deleteEpic eid =>
      cases hl : lookupKey db.epics eid with
      | none =>
          have hres : stepOp db (Op.deleteEpic eid) = db := by
            unfold stepOp applyOp delete_epic
            simp [hl, Except.map]
          rw [hres]
          exact ⟨h, Nat.le_succ _⟩
      | some ep =>
          have hres : stepOp db (Op.deleteEpic eid) =
              { db with stories := removeAll db.stories ep.stories,
                        epics := removeKey db.epics eid } := by
            unfold stepOp applyOp delete_epic
            simp [hl, Except.map]
          rw [hres]
          exact ⟨good_delete_epic h hl, Nat.le_succ _⟩
  | deleteStory eid sid =>
      cases hl : lookupKey db.epics eid with
      | none =>
          have hres : stepOp db (Op.deleteStory eid sid) = db := by
            unfold stepOp applyOp delete_story
            simp [hl, Except.map]
          rw [hres]
          exact ⟨h, Nat.le_succ _⟩
      | some ep =>
          by_cases hmem : sid ∈ ep.stories
          · have hres : stepOp db (Op.deleteStory eid sid) =
                { db with
                    epics := insertKey db.epics eid
                      { ep with stories := ep.stories.erase sid },
                    stories := removeKey db.stories sid } := by
              unfold stepOp applyOp delete_story
              simp [hl, hmem, Except.map]
            rw [hres]
            exact ⟨good_delete_story h hl hmem, Nat.le_succ _⟩
          · have hres : stepOp db (Op.deleteStory eid sid) = db := by
              unfold stepOp applyOp delete_story
              simp [hl, hmem, Except.map]
            rw [hres]
            exact ⟨h, Nat.le_succ _⟩
  | updateEpicStatus eid st =>
      cases hl : lookupKey db.epics eid with
      | none =>
          have hres : stepOp db (Op.updateEpicStatus eid st) = db := by
            unfold stepOp applyOp update_epic_status
            simp [hl, Except.map]
          rw [hres]
          exact ⟨h, Nat.le_succ _⟩
      | some ep =>
          have hres : stepOp db (Op.updateEpicStatus eid st) =
              { db with epics := insertKey db.epics eid { ep with status := st } } := by
            unfold stepOp applyOp update_epic_status
            simp [hl, Except.map]
          rw [hres]
          exact ⟨good_update_epic h hl, Nat.le_succ _⟩
  | updateStoryStatus sid st =>
      cases hl : lookupKey db.stories sid with
      | none =>
          have hres : stepOp db (Op.updateStoryStatus sid st) = db := by
            unfold stepOp applyOp update_story_status
            simp [hl, Except.map]
          rw [hres]
          exact ⟨h, Nat.le_succ _⟩
      | some st₀ =>
          have hres : stepOp db (Op.updateStoryStatus sid st) =
              { db with stories := insertKey db.stories sid { st₀ with status := st } } := by
            unfold stepOp applyOp update_story_status
            simp [hl, Except.map]
          rw [hres]
          exact ⟨good_update_story h hl, Nat.le_succ _⟩

/-- Well-formedness holds along every trace short enough that the 32-bit
counter cannot wrap, when created epics carry empty story lists. -/
theorem runOps_good : ∀ (ops : List Op) (db : DBState), goodState db →
    db.last_item_id + ops.length < u32Mod →
    (∀ e, Op.createEpic e ∈ ops → e.stories = []) →
    goodState (runOps db ops) ∧
      (runOps db ops).last_item_id ≤ db.last_item_id + ops.length := by
  intro ops
  induction ops with
  | nil =>
      intro db h _ _
      exact ⟨h, le_refl _⟩
  | cons op rest ih =>
      intro db h hov hce
      rw [List.length_cons] at hov
      have hov1 : db.last_item_id + 1 < u32Mod := by omega
      obtain ⟨hg, hle⟩ := stepOp_good h hov1
        (fun e he => hce e (he ▸ List.mem_cons_self op rest))
      have hov2 : (stepOp db op).last_item_id + rest.length < u32Mod := by omega
      obtain ⟨hg2, hle2⟩ := ih (stepOp db op) hg hov2
        (fun e he => hce e (List.mem_cons_of_mem _ he))
      have hrun : runOps db (op :: rest) = runOps (stepOp db op) rest := rfl
      rw [hrun, List.length_cons]
      exact ⟨hg2, by omega⟩

/-- The empty store is well-formed. -/
theorem emptyDB_good : goodState emptyDB := by
  refine ⟨?_, ?_, ?_, ?_, ?_, ?_, ?_⟩ <;>
    simp [emptyDB, keys, refInt1, refInt2]

theorem runIds_cons_ok_some {db db' : DBState} {op : Op} {id : Nat}
    (h : applyOp db op = Except.ok (db', some id)) (rest : List Op) :
    runIds db (op :: rest) = ((runIds db' rest).1, id :: (runIds db' rest).2) := by
  rw [runIds, h]

theorem runIds_cons_ok_none {db db' : DBState} {op : Op}
    (h : applyOp db op = Except.ok (db', none)) (rest : List Op) :
    runIds db (op :: rest) = runIds db' rest := by
  rw [runIds, h]

theorem runIds_cons_error {db : DBState} {op : Op} {e : DbError}
    (h : applyOp db op = Except.error e) (rest : List Op) :
    runIds db (op :: rest) = runIds db rest := by
  rw [runIds, h]

/-- Every operation either fails, succeeds without returning an ID and
with an unchanged counter, or succeeds returning exactly the incremented
(mod 2^32) counter, which also becomes the new counter. -/
theorem applyOp_cases (db : DBState) (op : Op) :
    (∃ e, applyOp db op = Except.error e) ∨
    (∃ db', applyOp db op = Except.ok (db', none) ∧
        db'.last_item_id = db.last_item_id) ∨
    (∃ db', applyOp db op = Except.ok (db', some ((db.last_item_id + 1) % u32Mod)) ∧
        db'.last_item_id = (db.last_item_id + 1) % u32Mod) := by
  cases op with
  | createEpic e =>
      exact Or.inr (Or.inr ⟨_, rfl, rfl⟩)
  | createStory st eid =>
      cases hl : lookupKey db.epics eid with
      | none =>
          refine Or.inl ⟨DbError.epicNotFound, ?_⟩
          unfold applyOp create_story
          simp [hl, Except.map]
      | some ep =>
          refine Or.inr (Or.inr
            ⟨{ last_item_id := (db.last_item_id + 1) % u32Mod,
               epics := insertKey db.epics eid
                 { ep with stories := ep.stories ++ [(db.last_item_id + 1) % u32Mod] },
               stories := insertKey db.stories ((db.last_item_id + 1) % u32Mod) st },
             ?_, rfl⟩)
          unfold applyOp create_story
          simp [hl, Except.map]
  | deleteEpic eid =>
      cases hl : lookupKey db.epics eid with
      | none =>
          refine Or.inl ⟨DbError.epicNotFound, ?_⟩
          unfold applyOp delete_epic
          simp [hl, Except.map]
      | some ep =>
          refine Or.inr (Or.inl
            ⟨{ db with stories := removeAll db.stories ep.stories,
                       epics := removeKey db.epics eid },
             ?_, rfl⟩)
          unfold applyOp delete_epic
          simp [hl, Except.map]
  | deleteStory eid sid =>
      cases hl : lookupKey db.epics eid with
      | none =>
          refine Or.inl ⟨DbError.epicNotFound, ?_⟩
          unfold applyOp delete_story
          simp [hl, Except.map]
      | some ep =>
          by_cases hmem : sid ∈ ep.stories
          · refine Or.inr (Or.inl
              ⟨{ db with epics := insertKey db.epics eid
                           { ep with stories := ep.stories.erase sid },
                         stories := removeKey db.stories sid },
               ?_, rfl⟩)
            unfold applyOp delete_story
            simp [hl, hmem, Except.map]
          · refine Or.inl ⟨DbError.storyNotFound, ?_⟩
            unfold applyOp delete_story
            simp [hl, hmem, Except.map]
  | updateEpicStatus eid st =>
      cases hl : lookupKey db.epics eid with
      | none =>
          refine Or.inl ⟨DbError.epicNotFound, ?_⟩
          unfold applyOp update_epic_status
          simp [hl, Except.map]
      | some ep =>
          refine Or.inr (Or.inl
            ⟨{ db with epics := insertKey db.epics eid { ep with status := st } },
             ?_, rfl⟩)
          unfold applyOp update_epic_status
          simp [hl, Except.map]
  | updateStoryStatus sid st =>
      cases hl : lookupKey db.stories sid with
      | none =>
          refine Or.inl ⟨DbError.storyNotFound, ?_⟩
          unfold applyOp update_story_status
          simp [hl, Except.map]
      | some st₀ =>
          refine Or.inr (Or.inl
            ⟨{ db with stories := insertKey db.stories sid { st₀ with status := st } },
             ?_, rfl⟩)
          unfold applyOp update_story_status
          simp [hl, Except.map]

/-- Along any trace short enough that the 32-bit counter cannot wrap, the
counter never decreases and grows by at most the trace length, every
collected create ID exceeds the starting counter and is bounded by the
final one, and the collected IDs are strictly increasing. -/
theorem runIds_facts : ∀ (ops : List Op) (db : DBState),
    db.last_item_id + ops.length < u32Mod →
    db.last_item_id ≤ (runIds db ops).1.last_item_id ∧
    (runIds db ops).1.last_item_id ≤ db.last_item_id + ops.length ∧
    (∀ i ∈ (runIds db ops).2,
        db.last_item_id < i ∧ i ≤ (runIds db ops).1.last_item_id) ∧
    (runIds db ops).2.Pairwise (· < ·) := by
  intro ops
  induction ops with
  | nil =>
      intro db _
      refine ⟨le_refl _, by simp [runIds], ?_, ?_⟩
      · intro i hi
        simp [runIds] at hi
      · simp [runIds]
  | cons op rest ih =>
      intro db hov
      simp only [List.length_cons] at hov ⊢
      rcases applyOp_cases db op with ⟨e, herr⟩ | ⟨db', hok, hlast⟩ | ⟨db', hok, hlast⟩
      · rw [runIds_cons_error herr rest]
        obtain ⟨ha, hb, hc, hd⟩ := ih db (by omega)
        refine ⟨ha, by omega, ?_, hd⟩
        intro i hi
        exact hc i hi
      · rw [runIds_cons_ok_none hok rest]
        obtain ⟨ha, hb, hc, hd⟩ := ih db' (by omega)
        refine ⟨by omega, by omega, ?_, hd⟩
        intro i hi
        have := hc i hi
        omega
      · have hmod : (db.last_item_id + 1) % u32Mod = db.last_item_id + 1 :=
          Nat.mod_eq_of_lt (by omega)
        rw [hmod] at hok hlast
        have hfst : (runIds db (op :: rest)).1 = (runIds db' rest).1 := by
          rw [runIds_cons_ok_some hok rest]
        have hsnd : (runIds db (op :: rest)).2 =
            (db.last_item_id + 1) :: (runIds db' rest).2 := by
          rw [runIds_cons_ok_some hok rest]
        rw [hfst, hsnd]
        obtain ⟨ha, hb, hc, hd⟩ := ih db' (by omega)
        refine ⟨?_, ?_, ?_, ?_⟩
        · omega
        · omega
        · intro i hi
          rcases List.mem_cons.mp hi with rfl | hi'
          · exact ⟨by omega, by omega⟩
          · have := hc i hi'
            exact ⟨by omega, by omega⟩
        · refine List.pairwise_cons.mpr ⟨?_, hd⟩
          intro i hi
          have := hc i hi
          omega

/-- The IDs returned by `n` consecutive `create_epic` calls: the counter
walks `(last + j + 1) % 2 ^ 32` for `j < n`. -/
theorem runIds_replicate (e : Epic) : ∀ (n : Nat) (db : DBState),
    db.last_item_id < u32Mod →
    (runIds db (List.replicate n (Op.createEpic e))).2 =
      (List.range n).map (fun j => (db.last_item_id + j + 1) % u32Mod) := by
  intro n
  induction n with
  | zero =>
      intro db _
      simp [runIds]
  | succ n ih =>
      intro db h
      rw [List.replicate_succ]
      have hok : applyOp db (Op.createEpic e) =
          Except.ok ({ db with last_item_id := ((db.last_item_id + 1) % u32Mod),
                               epics := insertKey db.epics ((db.last_item_id + 1) % u32Mod) e },
                     some ((db.last_item_id + 1) % u32Mod)) := rfl
      have hsnd : (runIds db (Op.createEpic e :: List.replicate n (Op.createEpic e))).2 =
          ((db.last_item_id + 1) % u32Mod) ::
            (runIds { db with last_item_id := ((db.last_item_id + 1) % u32Mod),
                              epics := insertKey db.epics ((db.last_item_id + 1) % u32Mod) e }
              (List.replicate n (Op.createEpic e))).2 := by
        rw [runIds_cons_ok_some hok (List.replicate n (Op.createEpic e))]
      rw [hsnd, ih _ (Nat.mod_lt _ (by unfold u32Mod; omega))]
      rw [List.range_succ_eq_map, List.map_cons, List.map_map]
      congr 1
      refine List.map_congr_left ?_
      intro j hj
      show ((db.last_item_id + 1) % u32Mod + j + 1) % u32Mod =
        (db.last_item_id + (j + 1) + 1) % u32Mod
      unfold u32Mod
      omega

/-! ## Claim theorems -/

/-- C1, counterexample: `create_epic` inserts its argument's `stories`
field pass-through, so creating an epic claiming story 1 from the empty
state immediately breaks invariant 1 (epic 1's list mentions ID 1, which
is no key of `stories`). -/
theorem claim1_counterexample :
    ¬ refInt1 (runOps emptyDB [Op.createEpic
        { name := [], description := [], status := Status.Open, stories := [1] }]) := by
  decide

/-- C1, amended: along every trace of operations from the empty state in
which each created epic carries an empty story list (as `Epic::new`
builds and the UI always passes) and which is short enough that the
32-bit counter cannot wrap, both referential-integrity invariants hold
after every operation (every prefix is again such a trace). -/
theorem claim1 (ops : List Op) (hlen : ops.length < 4294967296)
    (hce : ∀ e, Op.createEpic e ∈ ops → e.stories = []) :
    refInt1 (runOps emptyDB ops) ∧ refInt2 (runOps emptyDB ops) := by
  have h := runOps_good ops emptyDB emptyDB_good
    (by show (0 : Nat) + ops.length < u32Mod; unfold u32Mod; omega) hce
  exact ⟨h.1.2.2.2.2.2.1, h.1.2.2.2.2.2.2⟩

/-- C1, witness: a create-epic / create-story trace from the empty state
satisfies both invariants. -/
theorem claim1_witness :
    refInt1 (runOps emptyDB [Op.createEpic (Epic.new [] []),
        Op.createStory (Story.new [] []) 1]) ∧
    refInt2 (runOps emptyDB [Op.createEpic (Epic.new [] []),
        Op.createStory (Story.new [] []) 1]) :=
  claim1 [Op.createEpic (Epic.new [] []), Op.createStory (Story.new [] []) 1]
    (by simp)
    (by
      intro e he
      simp at he
      rw [he]
      rfl)

/-- C7, counterexample: on the Home screen over a store whose only live
epic has ID 3, the input `03` does NOT yield "no action" as claimed — the
decimal parse accepts leading zeros, so it navigates to epic 3. -/
theorem claim7_counterexample :
    HomePage.handle_input [(3, Epic.new [] [])] ['0', '3'] =
        some (Action.NavigateToEpicDetail 3) ∧
    HomePage.handle_input [(3, Epic.new [] [])] ['0', '3'] ≠ none := by
  constructor
  · rfl
  · intro h
    simp [HomePage.handle_input, parse_u32, containsKey, lookupKey, u32Mod] at h

/-- C7, amended: on the Home screen over a store whose only live epic has
ID 3, input `3` and input `03` both navigate to epic 3 (the decimal parse
accepts leading zeros), the empty input yields no action, and for every
store `q` exits and `c` creates an epic. -/
theorem claim7 :
    (∀ e : Epic, HomePage.handle_input [(3, e)] ['3'] =
        some (Action.NavigateToEpicDetail 3)) ∧
    (∀ e : Epic, HomePage.handle_input [(3, e)] ['0', '3'] =
        some (Action.NavigateToEpicDetail 3)) ∧
    (∀ e : Epic, HomePage.handle_input [(3, e)] [] = none) ∧
    (∀ epics, HomePage.handle_input epics ['q'] = some Action.Exit) ∧
    (∀ epics, HomePage.handle_input epics ['c'] = some Action.CreateEpic) :=
  ⟨fun _ => rfl, fun _ => rfl, fun _ => rfl, fun _ => rfl, fun _ => rfl⟩

/-- C9: `StoryDetail::handle_input` never consults the store and returns
`Ok` on every input, while `HomePage::handle_input` and
`EpicDetail::handle_input` run `read_db` before matching, so a failing
read makes them return the error for every input, the fixed commands
included. -/
theorem claim9 :
    (∀ (epic_id story_id : Nat) (input : List Char),
        ∃ a, StoryDetail.handle_input epic_id story_id input = Except.ok a) ∧
    (∀ (e : DbError) (input : List Char),
        HomePage.handle_input_db (Except.error e) input = Except.error e) ∧
    (∀ (e : DbError) (epic_id : Nat) (input : List Char),
        EpicDetail.handle_input_db (Except.error e) epic_id input = Except.error e) :=
  ⟨fun _ _ _ => ⟨_, rfl⟩, fun _ _ => rfl, fun _ _ _ => rfl⟩

/-- C10: the column formatter returns width-6 text `testme` unchanged,
truncates `testmetest` to the 6 characters `tes...` ending in the
ellipsis, degenerates to exactly `width` literal dots for any longer text
at widths 0–3, and right-pads shorter text with spaces to the width. -/
theorem claim10 :
    get_column_string ['t', 'e', 's', 't', 'm', 'e'] 6 =
        ['t', 'e', 's', 't', 'm', 'e'] ∧
    get_column_string ['t', 'e', 's', 't', 'm', 'e', 't', 'e', 's', 't'] 6 =
        ['t', 'e', 's', '.', '.', '.'] ∧
    (get_column_string ['t', 'e', 's', 't', 'm', 'e', 't', 'e', 's', 't'] 6).length = 6 ∧
    (∀ text width, width ≤ 3 → width < byteLen text →
        get_column_string text width = List.replicate width '.') ∧
    (∀ text width, byteLen text < width →
        get_column_string text width = text ++ List.replicate (width - byteLen text) ' ') := by
  refine ⟨by rfl, by rfl, by rfl, ?_, ?_⟩
  · intro text width h3 hlt
    interval_cases width <;>
      simp [get_column_string, hlt.ne', Nat.not_lt.mpr hlt.le]
  · intro text width h
    simp [get_column_string, h, h.ne]

/-- C10, witness instantiating the quantified parts at concrete inputs. -/
theorem claim10_witness :
    get_column_string ['a', 'b', 'c', 'd', 'e'] 2 = List.replicate 2 '.' ∧
    get_column_string ['a', 'b'] 5 = ['a', 'b'] ++ List.replicate (5 - byteLen ['a', 'b']) ' ' :=
  ⟨claim10.2.2.2.1 ['a', 'b', 'c', 'd', 'e'] 2 (by decide) (by decide),
   claim10.2.2.2.2 ['a', 'b'] 5 (by decide)⟩

/-- C3: `create_story` against a missing epic fails with the not-found
error and the persisted state is exactly the prior state, even though the
in-memory copy was already mutated; in general a failing operation leaves
the persisted state unchanged because `write_db` only runs on success. -/
theorem claim3 (db : DBState) (story : Story) (epic_id : Nat)
    (h : containsKey db.epics epic_id = false) :
    create_story db story epic_id = Except.error DbError.epicNotFound ∧
    stepOp db (Op.createStory story epic_id) = db ∧
    (∀ (db' : DBState) (op : Op) (e : DbError),
        applyOp db' op = Except.error e → stepOp db' op = db') := by
  have hl : lookupKey db.epics epic_id = none := (contains_eq_false_iff _ _).mp h
  have h1 : create_story db story epic_id = Except.error DbError.epicNotFound := by
    unfold create_story
    simp [hl]
  refine ⟨h1, ?_, ?_⟩
  · unfold stepOp applyOp
    simp [h1, Except.map]
  · intro db' op e he
    unfold stepOp
    simp [he]

/-- C3, witness: creating a story against epic 1 in the empty store. -/
theorem claim3_witness :
    create_story emptyDB (Story.new [] []) 1 = Except.error DbError.epicNotFound ∧
    stepOp emptyDB (Op.createStory (Story.new [] []) 1) = emptyDB ∧
    (∀ (db' : DBState) (op : Op) (e : DbError),
        applyOp db' op = Except.error e → stepOp db' op = db') :=
  claim3 emptyDB (Story.new [] []) 1 (by decide)

/-- C5: deleting a story through an epic whose own list does not mention
it fails with the not-found error and leaves the persisted state
unchanged, even when the story ID exists globally under another epic. -/
theorem claim5 (db : DBState) (epic_id story_id : Nat) (ep : Epic)
    (hep : lookupKey db.epics epic_id = some ep) (hnot : story_id ∉ ep.stories) :
    delete_story db epic_id story_id = Except.error DbError.storyNotFound ∧
    stepOp db (Op.deleteStory epic_id story_id) = db := by
  have h1 : delete_story db epic_id story_id = Except.error DbError.storyNotFound := by
    unfold delete_story
    simp [hep, hnot]
  refine ⟨h1, ?_⟩
  unfold stepOp applyOp
  simp [h1, Except.map]

/-- C5, witness: story 2 lives under epic 1, and deleting it through
epic 3 fails without changing the state. -/
theorem claim5_witness :
    delete_story
        { last_item_id := 3,
          epics := [(1, { name := [], description := [], status := Status.Open,
                          stories := [2] }),
                    (3, Epic.new [] [])],
          stories := [(2, Story.new [] [])] } 3 2 =
      Except.error DbError.storyNotFound ∧
    stepOp
        { last_item_id := 3,
          epics := [(1, { name := [], description := [], status := Status.Open,
                          stories := [2] }),
                    (3, Epic.new [] [])],
          stories := [(2, Story.new [] [])] } (Op.deleteStory 3 2) =
      { last_item_id := 3,
        epics := [(1, { name := [], description := [], status := Status.Open,
                        stories := [2] }),
                  (3, Epic.new [] [])],
        stories := [(2, Story.new [] [])] } :=
  claim5 _ 3 2 (Epic.new [] []) (by decide) (by decide)

/-- C6, counterexample: the IDs returned along a trace of `2 ^ 32`
successful `create_epic` calls from the empty state are not strictly
increasing — the 32-bit counter wraps, so the last allocation returns 0. -/
theorem claim6_counterexample :
    ¬ (runIds emptyDB
        (List.replicate 4294967296 (Op.createEpic (Epic.new [] [])))).2.Pairwise (· < ·) := by
  intro hpw
  rw [runIds_replicate (Epic.new [] []) 4294967296 emptyDB (by decide)] at hpw
  have h0 : emptyDB.last_item_id = 0 := rfl
  rw [h0] at hpw
  rw [List.pairwise_iff_getElem] at hpw
  have h1 := hpw 4294967294 4294967295
    (by simp only [List.length_map, List.length_range]; omega)
    (by simp only [List.length_map, List.length_range]; omega)
    (by omega)
  rw [List.getElem_map, List.getElem_map, List.getElem_range, List.getElem_range] at h1
  simp only [u32Mod] at h1
  omega

/-- C6, amended: along every trace of fewer than `2 ^ 32` operations from
the empty state (so the 32-bit counter cannot wrap), the IDs returned by
the successful create operations are strictly increasing and pairwise
distinct (hence never reused after interleaved deletes), and after the
whole trace — and likewise after every prefix — `last_item_id` is at
least every ID allocated so far. -/
theorem claim6 (ops : List Op) (hlen : ops.length < 4294967296) :
    (runIds emptyDB ops).2.Pairwise (· < ·) ∧
    (runIds emptyDB ops).2.Nodup ∧
    (∀ i ∈ (runIds emptyDB ops).2, i ≤ (runIds emptyDB ops).1.last_item_id) ∧
    (∀ pre suf, ops = pre ++ suf →
        ∀ i ∈ (runIds emptyDB pre).2, i ≤ (runIds emptyDB pre).1.last_item_id) := by
  have h := runIds_facts ops emptyDB
    (by show (0 : Nat) + ops.length < u32Mod; unfold u32Mod; omega)
  refine ⟨h.2.2.2, List.Pairwise.imp (fun hlt => Nat.ne_of_lt hlt) h.2.2.2,
    fun i hi => (h.2.2.1 i hi).2, ?_⟩
  intro pre suf heq i hi
  have hplen : pre.length ≤ ops.length := by
    rw [heq, List.length_append]
    omega
  have hp := runIds_facts pre emptyDB
    (by show (0 : Nat) + pre.length < u32Mod; unfold u32Mod; omega)
  exact (hp.2.2.1 i hi).2

/-- C6, witness: a concrete create/delete interleaving from the empty
state yields the strictly increasing IDs 1, 2, 3. -/
theorem claim6_witness :
    (runIds emptyDB [Op.createEpic (Epic.new [] []),
        Op.createStory (Story.new [] []) 1, Op.deleteEpic 1,
        Op.createEpic (Epic.new [] [])]).2.Pairwise (· < ·) ∧
    (runIds emptyDB [Op.createEpic (Epic.new [] []),
        Op.createStory (Story.new [] []) 1, Op.deleteEpic 1,
        Op.createEpic (Epic.new [] [])]).2.Nodup ∧
    (∀ i ∈ (runIds emptyDB [Op.createEpic (Epic.new [] []),
        Op.createStory (Story.new [] []) 1, Op.deleteEpic 1,
        Op.createEpic (Epic.new [] [])]).2,
      i ≤ (runIds emptyDB [Op.createEpic (Epic.new [] []),
        Op.createStory (Story.new [] []) 1, Op.deleteEpic 1,
        Op.createEpic (Epic.new [] [])]).1.last_item_id) ∧
    (∀ pre suf, [Op.createEpic (Epic.new [] []),
        Op.createStory (Story.new [] []) 1, Op.deleteEpic 1,
        Op.createEpic (Epic.new [] [])] = pre ++ suf →
      ∀ i ∈ (runIds emptyDB pre).2, i ≤ (runIds emptyDB pre).1.last_item_id) :=
  claim6 [Op.createEpic (Epic.new [] []), Op.createStory (Story.new [] []) 1,
    Op.deleteEpic 1, Op.createEpic (Epic.new [] [])] (by simp)

/-- C2, counterexample: at `last_item_id = u32::MAX` the 32-bit allocation
wraps, so `create_story` against a live epic succeeds but returns ID 0,
not `last_item_id + 1`, and `last_item_id` is not increased by 1. -/
theorem claim2_counterexample :
    (create_story
        { last_item_id := 4294967295, epics := [(1, Epic.new [] [])], stories := [] }
        (Story.new [] []) 1).toOption.map Prod.snd = some 0 ∧
    (0 : Nat) ≠ 4294967295 + 1 := by
  constructor
  · rfl
  · decide

/-- C2, amended: whenever `last_item_id < u32::MAX` (so the 32-bit
allocation does not wrap), `create_story` against a live epic succeeds
returning `last_item_id + 1`, and the resulting state shows that ID as a
key of `stories` and appended to the epic's story list, with
`last_item_id` increased by exactly 1. -/
theorem claim2 (db : DBState) (story : Story) (epic_id : Nat) (ep : Epic)
    (hep : lookupKey db.epics epic_id = some ep)
    (hov : db.last_item_id < 4294967295) :
    ∃ db', create_story db story epic_id = Except.ok (db', db.last_item_id + 1) ∧
      containsKey db'.stories (db.last_item_id + 1) = true ∧
      lookupKey db'.epics epic_id =
        some { ep with stories := ep.stories ++ [db.last_item_id + 1] } ∧
      db'.last_item_id = db.last_item_id + 1 := by
  have hmod : (db.last_item_id + 1) % u32Mod = db.last_item_id + 1 :=
    Nat.mod_eq_of_lt (by unfold u32Mod; omega)
  refine ⟨{ db with
      last_item_id := db.last_item_id + 1,
      stories := insertKey db.stories (db.last_item_id + 1) story,
      epics := insertKey db.epics epic_id
        { ep with stories := ep.stories ++ [db.last_item_id + 1] } }, ?_, ?_, ?_, rfl⟩
  · unfold create_story
    simp [hmod, hep]
  · simp [containsKey, lookup_insert_self]
  · exact lookup_insert_self _ _ _

/-- C2, witness: creating a story against epic 1 of a one-epic store with
counter 1 yields ID 2, present in both maps. -/
theorem claim2_witness :
    ∃ db', create_story
        { last_item_id := 1, epics := [(1, Epic.new [] [])], stories := [] }
        (Story.new [] []) 1 = Except.ok (db', 2) ∧
      containsKey db'.stories 2 = true ∧
      lookupKey db'.epics 1 =
        some { name := [], description := [], status := Status.Open, stories := [2] } ∧
      db'.last_item_id = 2 :=
  claim2 _ (Story.new [] []) 1 (Epic.new [] []) rfl (by decide)

/-- C8: on the epic-detail screen, any input other than the four fixed
commands navigates to story `id` exactly when it parses as an unsigned
integer that is a key of the global story map (regardless of which epic's
list mentions it), and yields no action otherwise. -/
theorem claim8 (epic_id : Nat) (stories : List (Nat × Story)) (input : List Char)
    (hp : input ≠ ['p']) (hu : input ≠ ['u']) (hd : input ≠ ['d']) (hc : input ≠ ['c']) :
    (∀ story_id, (EpicDetail.handle_input epic_id stories input =
          some (Action.NavigateToStoryDetail epic_id story_id)) ↔
        (parse_u32 input = some story_id ∧ containsKey stories story_id = true)) ∧
    ((EpicDetail.handle_input epic_id stories input = none) ↔
        (∀ story_id, parse_u32 input = some story_id →
          containsKey stories story_id = false)) := by
  unfold EpicDetail.handle_input
  rw [if_neg hp, if_neg hu, if_neg hd, if_neg hc]
  cases hpar : parse_u32 input with
  | none => exact ⟨fun sid => by simp, by simp⟩
  | some sid₀ =>
      by_cases hcont : containsKey stories sid₀ = true
      · simp only [hcont, if_true]
        refine ⟨fun sid => ⟨?_, ?_⟩, ⟨?_, ?_⟩⟩
        · intro h
          simp only [Option.some.injEq, Action.NavigateToStoryDetail.injEq] at h
          obtain ⟨-, rfl⟩ := h
          exact ⟨rfl, hcont⟩
        · rintro ⟨hps, -⟩
          cases Option.some.inj hps
          rfl
        · intro h
          exact absurd h (by simp)
        · intro hall
          have hf := hall sid₀ rfl
          rw [hf] at hcont
          exact absurd hcont (by simp)
      · have hcf : containsKey stories sid₀ = false := by simpa using hcont
        simp only [hcf, Bool.false_eq_true, if_false]
        refine ⟨fun sid => ⟨?_, ?_⟩, ⟨?_, ?_⟩⟩
        · intro h
          exact absurd h (by simp)
        · rintro ⟨hps, hcs⟩
          cases Option.some.inj hps
          rw [hcf] at hcs
          exact absurd hcs (by simp)
        · intro h sid hps
          cases Option.some.inj hps
          exact hcf
        · intro h
          trivial

/-- C8, witness: input `2` on epic 1's detail screen navigates to story 2
of the global story map. -/
theorem claim8_witness :
    EpicDetail.handle_input 1 [(2, Story.new [] [])] ['2'] =
      some (Action.NavigateToStoryDetail 1 2) :=
  ((claim8 1 [(2, Story.new [] [])] ['2'] (by decide) (by decide) (by decide)
      (by decide)).1 2).mpr ⟨by rfl, by rfl⟩

/-- C4: deleting a live epic succeeds, removes it from `epics`, removes
every ID of its story list from `stories` while leaving other epics and
stories untouched, and keeps `last_item_id`; deleting a missing epic
fails with the not-found error and changes nothing. -/
theorem claim4 (db : DBState) (epic_id : Nat)
    (hne : (keys db.epics).Nodup) (hns : (keys db.stories).Nodup) :
    (∀ ep, lookupKey db.epics epic_id = some ep →
      ∃ db', delete_epic db epic_id = Except.ok db' ∧
        containsKey db'.epics epic_id = false ∧
        (∀ sid ∈ ep.stories, containsKey db'.stories sid = false) ∧
        (∀ k, k ≠ epic_id → lookupKey db'.epics k = lookupKey db.epics k) ∧
        (∀ sid, sid ∉ ep.stories → lookupKey db'.stories sid = lookupKey db.stories sid) ∧
        db'.last_item_id = db.last_item_id) ∧
    (lookupKey db.epics epic_id = none →
      delete_epic db epic_id = Except.error DbError.epicNotFound ∧
      stepOp db (Op.deleteEpic epic_id) = db) := by
  constructor
  · intro ep hep
    refine ⟨{ db with
        stories := removeAll db.stories ep.stories,
        epics := removeKey db.epics epic_id }, ?_, ?_, ?_, ?_, ?_, rfl⟩
    · unfold delete_epic
      simp [hep]
    · rw [contains_eq_false_iff]
      exact lookup_remove_self hne
    · intro sid hsid
      rw [contains_eq_false_iff]
      exact lookup_removeAll_mem hns hsid
    · intro k hk
      exact lookup_remove_ne db.epics hk
    · intro sid hsid
      exact lookup_removeAll_not_mem db.stories hsid
  · intro hnone
    have h1 : delete_epic db epic_id = Except.error DbError.epicNotFound := by
      unfold delete_epic
      simp [hnone]
    refine ⟨h1, ?_⟩
    unfold stepOp applyOp
    simp [h1, Except.map]

/-- C4, witness: deleting epic 1, which owns story 2, from a two-epic
store; the success branch and the failure branch (epic 9) instantiated. -/
theorem claim4_witness :
    (∃ db', delete_epic
        { last_item_id := 3,
          epics := [(1, { name := [], description := [], status := Status.Open,
                          stories := [2] }),
                    (3, Epic.new [] [])],
          stories := [(2, Story.new [] [])] } 1 = Except.ok db' ∧
      containsKey db'.epics 1 = false ∧
      (∀ sid ∈ [2], containsKey db'.stories sid = false) ∧
      db'.last_item_id = 3) ∧
    delete_epic
        { last_item_id := 3,
          epics := [(1, { name := [], description := [], status := Status.Open,
                          stories := [2] }),
                    (3, Epic.new [] [])],
          stories := [(2, Story.new [] [])] } 9 =
      Except.error DbError.epicNotFound := by
  have h := claim4
      { last_item_id := 3,
        epics := [(1, { name := [], description := [], status := Status.Open,
                        stories := [2] }),
                  (3, Epic.new [] [])],
        stories := [(2, Story.new [] [])] } 1 (by decide) (by decide)
  have h9 := claim4
      { last_item_id := 3,
        epics := [(1, { name := [], description := [], status := Status.Open,
                        stories := [2] }),
                  (3, Epic.new [] [])],
        stories := [(2, Story.new [] [])] } 9 (by decide) (by decide)
  obtain ⟨db', he, hc1, hstories, -, -, hlast⟩ :=
    h.1 { name := [], description := [], status := Status.Open, stories := [2] } (by rfl)
  exact ⟨⟨db', he, hc1, hstories, hlast⟩, (h9.2 (by rfl)).1⟩

end Jira
